import Mathlib

/-!
A verification development for the vectorized chained hash-join engine of
`src/execution/join_hashtable.cpp`.

The C++ code is shallowly embedded: column batches become `List (Option Nat)`
per column (with `none` for SQL NULL), selection vectors become `List Nat` of
lane indices, row pointers become natural-number row ids, and the per-row
next-pointer slots of the chained hash table become an explicit
`Nat → Option Nat` map.  External collaborators (hash functions,
`RowOperations::Match`, the correlated aggregate) are oracle parameters, as the
spec treats them as interfaces.  Helpers of the repository that are not part of
the sample sources (e.g. `NextPowerOfTwo`, `RadixPartitioning` internals) are
modelled from the spec and marked as such in their doc comments.
-/

/-- Join flavors of `JoinType` (duckdb/common/enums/join_type.hpp). -/
inductive JoinType where
  | INNER | LEFT | RIGHT | OUTER | SEMI | ANTI | MARK | SINGLE
deriving DecidableEq, Repr

/-- Modelled from the spec: right/full outer joins are `RIGHT` and `OUTER`
(`IsRightOuterJoin` lives outside the sampled sources). -/
def isRightOuterJoin (t : JoinType) : Bool :=
  t = JoinType.RIGHT || t = JoinType.OUTER

/-- Pointwise function update (used for per-row next-pointer stores and
per-lane mutations; written out so that it reduces by `rfl`/`decide`). -/
def updFn {α : Type} (f : Nat → α) (k : Nat) (v : α) : Nat → α :=
  fun x => if x = k then v else f x

/-! ### Key preparation (`FilterNullValues`, `JoinHashTable::PrepareKeys`) -/

/-- `FilterNullValues`: keep the lanes of `sel` whose entry in `col` is valid
(not NULL), in order. -/
def filterNullValues (col : List (Option Nat)) (sel : List Nat) : List Nat :=
  sel.filter (fun idx => (col.getD idx none).isSome)

/-- One iteration of the column loop in `JoinHashTable::PrepareKeys`:
null-equals columns are skipped, all-valid columns are skipped
(`validity.AllValid()`), otherwise the selection is filtered. -/
def prepareKeysStep (sel : List Nat) (p : Bool × List (Option Nat)) : List Nat :=
  if p.1 then sel
  else if p.2.all Option.isSome then sel
  else filterNullValues p.2 sel

/-- `JoinHashTable::PrepareKeys`: on the build side of a right/full outer join
no NULL keys are removed; otherwise each condition column whose
`null_values_are_equal` flag is false filters out its NULL rows.  The result is
the surviving selection vector (the code additionally returns
`added_count = length` of it). -/
def JoinHashTable.prepareKeys (joinType : JoinType) (buildSide : Bool) (nve : List Bool)
    (cols : List (List (Option Nat))) (n : Nat) : List Nat :=
  if buildSide && isRightOuterJoin joinType then List.range n
  else (nve.zip cols).foldl prepareKeysStep (List.range n)

/-! ### `ScanStructure::ConstructMarkJoinResult` -/

/-- One iteration of the validity loop in `ConstructMarkJoinResult`: for each
non-null-equals key column that is not all-valid, the code runs
`mask.Set(i, RowIsValid)` for every row `i`, i.e. it overwrites the whole mask
with that column's validity. -/
def markMaskStep (n : Nat) (mask : List Bool) (p : Bool × List (Option Nat)) : List Bool :=
  if p.1 then mask
  else if p.2.all Option.isSome then mask
  else (List.range n).map (fun i => (p.2.getD i none).isSome)

/-- `ScanStructure::ConstructMarkJoinResult` (non-correlated MARK join): the
result column as a list of `Option Bool` (`none` = SQL NULL).  The validity
mask of a freshly reset result vector starts all-valid; `bool_result[i]` is
`found_match[i]` (or 0 via `memset` when absent); finally, when the build side
`has_null`, every false entry is invalidated. -/
def ScanStructure.constructMarkJoinResult (nve : List Bool) (hasNull : Bool)
    (foundMatch : List Bool) (joinKeys : List (List (Option Nat))) (n : Nat) :
    List (Option Bool) :=
  let mask := (nve.zip joinKeys).foldl (markMaskStep n) (List.replicate n true)
  (List.range n).map (fun i =>
    let b := foundMatch.getD i false
    let valid := if hasNull && !b then false else mask.getD i true
    if valid then some b else none)

/-- The three-valued-logic property claimed for `ConstructMarkJoinResult`:
a row is NULL iff some non-null-equals key column is NULL in it, or the build
side has a NULL and the row found no match; otherwise the boolean is
`found_match`. -/
def markClaimProperty (nve : List Bool) (hasNull : Bool) (foundMatch : List Bool)
    (joinKeys : List (List (Option Nat))) (n : Nat) : Prop :=
  ∀ i < n,
    (((ScanStructure.constructMarkJoinResult nve hasNull foundMatch joinKeys n).getD i
        (some true) = none) ↔
      ((∃ p ∈ nve.zip joinKeys, p.1 = false ∧ p.2.getD i none = none) ∨
        (hasNull = true ∧ foundMatch.getD i false = false)))

instance (nve : List Bool) (hasNull : Bool) (foundMatch : List Bool)
    (joinKeys : List (List (Option Nat))) (n : Nat) :
    Decidable (markClaimProperty nve hasNull foundMatch joinKeys n) := by
  unfold markClaimProperty
  infer_instance

example :
    ScanStructure.constructMarkJoinResult [false] false [false, true]
      [[none, some 1]] 2 = [none, some true] := by decide

/-- C1: with two non-null-equals equality key columns the per-column validity
loop overwrites the mask, so a probe row whose NULL sits in an earlier column
gets a non-NULL result: the code contradicts the claimed three-valued logic
(and its own comment "if there is any NULL in the keys, the result is NULL").
Row 0 holds NULL in column 0 but evaluates to `some false` instead of NULL. -/
theorem constructMarkJoinResult_mask_overwrite :
    ScanStructure.constructMarkJoinResult [false, false] false [false, false]
        [[none, some 1], [some 1, none]] 2 = [some false, none] ∧
      ¬ markClaimProperty [false, false] false [false, false]
          [[none, some 1], [some 1, none]] 2 := by
  decide

/-! ### Histogram reduction (`JoinHashTable::ReduceHistogram`, C2) -/

/-- Modelled from the spec: `RadixPartitioning::ReduceHistogram`
(radix_partitioning.cpp is not among the sampled sources) merges adjacent
buckets: `new[i] = sum of old[i*k ... i*k + k - 1]` with `k = 2^(from-to)`. -/
def RadixPartitioning.reduceHistogram (hist : List Nat) (fromBits toBits : Nat) : List Nat :=
  let k := 2 ^ (fromBits - toBits)
  (List.range (2 ^ toBits)).map (fun i =>
    ((List.range k).map (fun j => hist.getD (i * k + j) 0)).sum)

/-- `JoinHashTable::PartitionsFitInMemory`: the source is a stub that ignores
its arguments and always returns false ("TODO: implement"). -/
def JoinHashTable.partitionsFitInMemory (_histogram : List Nat) (_averageRowSize : Nat) : Bool :=
  false

/-- `JoinHashTable::ReduceHistogram`: the reducing `while`-loop, returning the
final `(current_radix_bits, histogram)`.  The loop body either installs the
reduced histogram and iterates, or breaks; because `PartitionsFitInMemory`
always returns false, the loop exits within its first iteration, so this single
unrolling is exact.  (Note the loop never decrements `current_radix_bits`; were
the fit check ever true it would re-reduce from the same bit width forever.) -/
def JoinHashTable.reduceHistogram (currentRadixBits : Nat) (hist : List Nat)
    (avgStringSize rowWidth : Nat) : Nat × List Nat :=
  let avgRowSize := avgStringSize + rowWidth
  if currentRadixBits > 1 then
    let reduced := RadixPartitioning.reduceHistogram hist currentRadixBits (currentRadixBits - 1)
    if JoinHashTable.partitionsFitInMemory reduced avgRowSize then
      (currentRadixBits, reduced)
    else
      (currentRadixBits, hist)
  else (currentRadixBits, hist)

/-- Modelled from the spec: the intended fit check — every partition's
estimated size `count × (row_width + avg_string_bytes)` fits in the memory
budget. -/
def specPartitionsFit (hist : List Nat) (avgRowSize budget : Nat) : Bool :=
  hist.all (fun c => c * avgRowSize ≤ budget)

/-- C2: with `current_radix_bits = 2`, histogram `[1,1,1,1]`, row width 8 and a
budget of 100 bytes, every partition of the reduced histogram `[2,2]` fits the
claimed estimate, yet `JoinHashTable::ReduceHistogram` applies no reduction at
all (its fit check is a stub returning false), leaving bits and histogram
untouched. -/
theorem reduceHistogram_never_reduces :
    JoinHashTable.reduceHistogram 2 [1, 1, 1, 1] 0 8 = (2, [1, 1, 1, 1]) ∧
      RadixPartitioning.reduceHistogram [1, 1, 1, 1] 2 1 = [2, 2] ∧
      specPartitionsFit (RadixPartitioning.reduceHistogram [1, 1, 1, 1] 2 1) 8 100 = true := by
  decide

/-! ### `JoinHashTable::Build` (C6, C10) -/

/-- A build batch: the key columns (all join-condition columns, equality first),
the payload columns, the per-row hash values (the external
`VectorOperations::Hash` oracle over the equality prefix), and the row count. -/
structure BuildBatch where
  keyCols : List (List (Option Nat))
  payloadCols : List (List (Option Nat))
  hashes : List Nat
  n : Nat

/-- A row as scattered into the row collection: its serialized column values
(keys then payload, variable-length data stored inline rather than in a
separate heap) and its hash. -/
structure StoredRow where
  cols : List (Option Nat)
  hash : Nat
deriving DecidableEq, Repr

/-- The build-side mutable state of a `JoinHashTable`: the `has_null` flag, the
rows appended to the block collection (with the heap inlined), the radix
histogram, and the chunks fed to the correlated-mark aggregate. -/
structure BuildState where
  hasNull : Bool
  rows : List StoredRow
  histogram : List Nat
  correlatedFed : List BuildBatch

/-- Modelled from the spec: `RadixPartitioning::UpdateHistogram` adds one to
`hist[hash >> (HASH_BITS - bits)]` for every selected row (`HASH_BITS = 64`). -/
def RadixPartitioning.updateHistogram (hist : List Nat) (hashes : List Nat)
    (sel : List Nat) (bits : Nat) : List Nat :=
  sel.foldl (fun h idx =>
    let p := (hashes.getD idx 0) >>> (64 - bits)
    h.set p (h.getD p 0 + 1)) hist

/-- `JoinHashTable::Build` for one batch: empty batches return immediately;
otherwise the correlated-mark aggregate is fed (when configured), keys are
prepared (possibly dropping NULL rows and setting `has_null`), and the
surviving rows are hashed, scattered into the row collection and counted in
the histogram.  `radixBits` stands for the `INITIAL_RADIX_BITS` constant
(defined outside the sampled sources). -/
def JoinHashTable.build (joinType : JoinType) (nve : List Bool) (correlatedMark : Bool)
    (radixBits : Nat) (st : BuildState) (b : BuildBatch) : BuildState :=
  if b.n = 0 then st
  else
    let st1 := if correlatedMark then { st with correlatedFed := st.correlatedFed ++ [b] } else st
    let sel := JoinHashTable.prepareKeys joinType true nve b.keyCols b.n
    let st2 := if sel.length < b.n then { st1 with hasNull := true } else st1
    if sel.length = 0 then st2
    else
      { st2 with
        rows := st2.rows ++ sel.map (fun i =>
          ⟨(b.keyCols ++ b.payloadCols).map (fun c => c.getD i none), b.hashes.getD i 0⟩),
        histogram := RadixPartitioning.updateHistogram st2.histogram b.hashes sel radixBits }

/-- C10: `Build` on a zero-size keys chunk is the identity on the whole
hash-table state: nothing is appended, the histogram and `has_null` are
untouched, and the correlated aggregate is not fed. -/
theorem build_empty_batch_frame (joinType : JoinType) (nve : List Bool)
    (correlatedMark : Bool) (radixBits : Nat) (st : BuildState) (b : BuildBatch)
    (h : b.n = 0) :
    JoinHashTable.build joinType nve correlatedMark radixBits st b = st := by
  unfold JoinHashTable.build
  simp [h]

/-- Witness for `build_empty_batch_frame` at a concrete empty batch and a
nontrivial starting state. -/
theorem build_empty_batch_frame_witness :
    JoinHashTable.build JoinType.INNER [false] false 4
        ⟨true, [⟨[some 5], 7⟩], [0, 3], []⟩ ⟨[[]], [[]], [], 0⟩
      = ⟨true, [⟨[some 5], 7⟩], [0, 3], []⟩ :=
  build_empty_batch_frame JoinType.INNER [false] false 4
    ⟨true, [⟨[some 5], 7⟩], [0, 3], []⟩ ⟨[[]], [[]], [], 0⟩ rfl

/-! ### Characterizing `PrepareKeys` and `has_null` (C6) -/

theorem prepareKeys_foldl_filter (pairs : List (Bool × List (Option Nat))) (n : Nat)
    (hwf : ∀ p ∈ pairs, p.2.length = n) :
    ∀ sel : List Nat, (∀ i ∈ sel, i < n) →
      pairs.foldl prepareKeysStep sel
        = sel.filter (fun i => pairs.all (fun p => p.1 || (p.2.getD i none).isSome)) := by
  induction pairs with
  | nil => intro sel _; simp
  | cons p rest ih =>
    intro sel hsel
    have hwfRest : ∀ q ∈ rest, q.2.length = n := fun q hq => hwf q (List.mem_cons_of_mem _ hq)
    have hp : p.2.length = n := hwf p (List.mem_cons_self _ _)
    simp only [List.foldl_cons]
    by_cases h1 : p.1
    · rw [show prepareKeysStep sel p = sel from by simp [prepareKeysStep, h1]]
      rw [ih hwfRest sel hsel]
      refine List.filter_congr fun i _ => ?_
      simp only [List.all_cons, h1, Bool.true_or, Bool.true_and]
    · by_cases h2 : p.2.all Option.isSome
      · rw [show prepareKeysStep sel p = sel from by simp [prepareKeysStep, h1, h2]]
        rw [ih hwfRest sel hsel]
        refine List.filter_congr fun i hi => ?_
        have hi' : i < p.2.length := hp ▸ hsel i hi
        have hv : (p.2.getD i none).isSome = true := by
          rw [List.getD_eq_getElem p.2 none hi']
          exact List.all_eq_true.mp h2 _ (List.getElem_mem hi')
        simp only [List.all_cons, hv, Bool.or_true, Bool.true_and]
      · rw [show prepareKeysStep sel p = filterNullValues p.2 sel from by
            simp [prepareKeysStep, h1, h2]]
        unfold filterNullValues
        rw [ih hwfRest _ fun i hi => hsel i (List.mem_of_mem_filter hi)]
        rw [List.filter_filter]
        refine List.filter_congr fun i _ => ?_
        rcases hv : (p.2.getD i none).isSome <;>
          simp only [List.all_cons, h1, hv, Bool.false_or, Bool.and_true, Bool.and_false,
            Bool.true_and, Bool.false_and]

theorem prepareKeys_eq_filter (joinType : JoinType) (buildSide : Bool) (nve : List Bool)
    (cols : List (List (Option Nat))) (n : Nat) (hwf : ∀ c ∈ cols, c.length = n) :
    JoinHashTable.prepareKeys joinType buildSide nve cols n
      = if buildSide && isRightOuterJoin joinType then List.range n
        else (List.range n).filter
          (fun i => (nve.zip cols).all (fun p => p.1 || (p.2.getD i none).isSome)) := by
  unfold JoinHashTable.prepareKeys
  by_cases h : buildSide && isRightOuterJoin joinType
  · simp [h]
  · simp only [h, if_false]
    exact prepareKeys_foldl_filter _ n
      (fun p hp => hwf p.2 (List.of_mem_zip hp).2) _ (fun i hi => List.mem_range.mp hi)

/-- Whether a batch makes `Build` set `has_null`: the batch is nonempty and key
preparation dropped at least one row. -/
def batchDrops (joinType : JoinType) (nve : List Bool) (b : BuildBatch) : Bool :=
  if b.n = 0 then false
  else decide ((JoinHashTable.prepareKeys joinType true nve b.keyCols b.n).length < b.n)

theorem build_hasNull_step (joinType : JoinType) (nve : List Bool) (correlatedMark : Bool)
    (radixBits : Nat) (st : BuildState) (b : BuildBatch) :
    (JoinHashTable.build joinType nve correlatedMark radixBits st b).hasNull
      = (st.hasNull || batchDrops joinType nve b) := by
  unfold JoinHashTable.build batchDrops
  by_cases h0 : b.n = 0
  · simp [h0]
  · have hpos : 0 < b.n := Nat.pos_of_ne_zero h0
    simp only [h0, if_false]
    by_cases hd : (JoinHashTable.prepareKeys joinType true nve b.keyCols b.n).length < b.n <;>
      by_cases hc : correlatedMark <;>
      by_cases hz : (JoinHashTable.prepareKeys joinType true nve b.keyCols b.n).length = 0 <;>
      simp [hd, hc, hz, hpos]

theorem build_hasNull_fold (joinType : JoinType) (nve : List Bool) (correlatedMark : Bool)
    (radixBits : Nat) (batches : List BuildBatch) :
    ∀ st : BuildState,
      (batches.foldl (JoinHashTable.build joinType nve correlatedMark radixBits) st).hasNull
        = (st.hasNull || batches.any (batchDrops joinType nve)) := by
  induction batches with
  | nil => intro st; simp
  | cons b rest ih =>
    intro st
    simp only [List.foldl_cons, List.any_cons]
    rw [ih, build_hasNull_step, Bool.or_assoc]

theorem filter_range_length_lt_iff (n : Nat) (pred : Nat → Bool) :
    ((List.range n).filter pred).length < n ↔ ∃ i < n, pred i = false := by
  constructor
  · intro hlt
    by_contra hno
    push_neg at hno
    have hall : ∀ i ∈ List.range n, pred i = true := by
      intro i hi
      rcases h : pred i
      · exact absurd h (hno i (List.mem_range.mp hi))
      · rfl
    rw [List.filter_eq_self.mpr hall, List.length_range] at hlt
    omega
  · rintro ⟨i, hi, hpf⟩
    have hle := List.length_filter_le pred (List.range n)
    rw [List.length_range] at hle
    rcases Nat.lt_or_ge ((List.range n).filter pred).length n with h | h
    · exact h
    · exfalso
      have heq : ((List.range n).filter pred).length = (List.range n).length := by
        rw [List.length_range]; omega
      have hall := List.filter_length_eq_length.mp heq
      have hti := hall i (List.mem_range.mpr hi)
      rw [hpf] at hti
      exact Bool.false_ne_true hti

theorem batchDrops_iff (joinType : JoinType) (nve : List Bool) (b : BuildBatch)
    (hwf : ∀ c ∈ b.keyCols, c.length = b.n) :
    batchDrops joinType nve b = true ↔
      (isRightOuterJoin joinType = false ∧
        ∃ i < b.n, ∃ p ∈ nve.zip b.keyCols, p.1 = false ∧ p.2.getD i none = none) := by
  unfold batchDrops
  by_cases h0 : b.n = 0
  · simp [h0]
  · simp only [h0, if_false]
    rw [prepareKeys_eq_filter joinType true nve b.keyCols b.n hwf]
    rcases hro : isRightOuterJoin joinType
    · simp only [Bool.and_false, Bool.false_eq_true, if_false, decide_eq_true_eq,
        eq_self_iff_true, true_and]
      rw [filter_range_length_lt_iff]
      refine exists_congr fun i => and_congr_right fun _ => ?_
      rw [List.all_eq_false]
      constructor
      · rintro ⟨p, hp, hne⟩
        rw [Bool.not_eq_true, Bool.or_eq_false_iff] at hne
        refine ⟨p, hp, hne.1, ?_⟩
        have := hne.2
        rcases hv : p.2.getD i none with _ | v
        · rfl
        · rw [hv] at this; simp at this
      · rintro ⟨p, hp, h1, h2⟩
        exact ⟨p, hp, by rw [Bool.not_eq_true, h1, h2]; rfl⟩
    · simp [List.length_range]

/-- C6 (amended): after any sequence of `Build` calls, `has_null` is set iff
the join is not right/full outer and some input row of some batch holds a NULL
in a condition (key) column whose null-equals flag is false — i.e. a row was
dropped during key preparation.  For right/full outer joins `PrepareKeys`
returns the full selection on the build side, so `has_null` is never set. -/
theorem build_hasNull_iff (joinType : JoinType) (nve : List Bool) (correlatedMark : Bool)
    (radixBits : Nat) (hist0 : List Nat) (batches : List BuildBatch)
    (hwf : ∀ b ∈ batches, ∀ c ∈ b.keyCols, c.length = b.n) :
    ((batches.foldl (JoinHashTable.build joinType nve correlatedMark radixBits)
          ⟨false, [], hist0, []⟩).hasNull = true ↔
        (isRightOuterJoin joinType = false ∧
          ∃ b ∈ batches, ∃ i < b.n,
            ∃ p ∈ nve.zip b.keyCols, p.1 = false ∧ p.2.getD i none = none)) ∧
      (isRightOuterJoin joinType = true →
        (batches.foldl (JoinHashTable.build joinType nve correlatedMark radixBits)
            ⟨false, [], hist0, []⟩).hasNull = false) ∧
      (isRightOuterJoin joinType = true → ∀ cols n,
        JoinHashTable.prepareKeys joinType true nve cols n = List.range n) := by
  have hfold := build_hasNull_fold joinType nve correlatedMark radixBits batches
    ⟨false, [], hist0, []⟩
  refine ⟨?_, ?_, ?_⟩
  · rw [hfold]
    simp only [Bool.false_or, List.any_eq_true]
    constructor
    · rintro ⟨b, hb, hd⟩
      have := (batchDrops_iff joinType nve b (hwf b hb)).mp hd
      exact ⟨this.1, b, hb, this.2⟩
    · rintro ⟨hro, b, hb, hrest⟩
      exact ⟨b, hb, (batchDrops_iff joinType nve b (hwf b hb)).mpr ⟨hro, hrest⟩⟩
  · intro hro
    rw [hfold]
    simp only [Bool.false_or, List.any_eq_false]
    intro b _
    simp [batchDrops, JoinHashTable.prepareKeys, hro]
  · intro hro cols n
    unfold JoinHashTable.prepareKeys
    simp [hro]

/-- C6 counterexample to the claim as stated: a NULL in a non-equality
condition column (a second condition with a non-equality comparison, whose
null-equals flag is also false) drops the row and sets `has_null`, although no
equality key column holds a NULL anywhere — `PrepareKeys` filters every
condition column, not only the equality prefix (here the prefix is the single
column 0). -/
theorem build_hasNull_nonEquality_counterexample :
    (JoinHashTable.build JoinType.INNER [false, false] false 4
        ⟨false, [], [], []⟩ ⟨[[some 0], [none]], [], [0], 1⟩).hasNull = true ∧
      ¬ ∃ i < 1, ∃ j < 1, ([false, false] : List Bool).getD j true = false ∧
          (([[some 0], [none]] : List (List (Option Nat))).getD j []).getD i none = none := by
  decide

/-- Witness for `build_hasNull_iff`: one INNER-join batch of two rows whose
only key column holds a NULL in row 0 makes `has_null` true. -/
theorem build_hasNull_iff_witness :
    (([⟨[[none, some 2]], [], [5, 6], 2⟩] : List BuildBatch).foldl
        (JoinHashTable.build JoinType.INNER [false] false 4)
        ⟨false, [], [], []⟩).hasNull = true :=
  (build_hasNull_iff JoinType.INNER [false] false 4 [] [⟨[[none, some 2]], [], [5, 6], 2⟩]
      (by decide)).1.mpr
    ⟨rfl, ⟨[[none, some 2]], [], [5, 6], 2⟩, List.Mem.head _, 0, by decide,
      (false, [none, some 2]), List.Mem.head _, rfl, rfl⟩

/-! ### `JoinHashTable::ScanFullOuter` (C3) -/

/-- A row of the finalized build table as seen by the full-outer scan: its
found-flag byte (at `tuple_base + tuple_size`) and its build-side column
values. -/
structure BuildTupleRow where
  found : Bool
  cols : List Nat
deriving DecidableEq, Repr

/-- The scan cursor of `JoinHTScanState`. -/
structure JoinHTScanState where
  blockPosition : Nat
  position : Nat
deriving DecidableEq, Repr

/-- Result of the inner row loop of `ScanFullOuter` over one block. -/
structure InnerScanResult where
  rows : List BuildTupleRow
  foundEntries : Nat
  position : Nat
  capped : Bool
deriving DecidableEq, Repr

/-- The inner loop of `ScanFullOuter` over the remaining rows of one block
(`block` is the block's suffix starting at `pos`): rows whose found-flag is
false are collected; when `found_entries` reaches the vector capacity the loop
breaks with `state.position` already advanced past the emitted row. -/
def scanFullOuterInner : List BuildTupleRow → Nat → Nat → Nat → List BuildTupleRow →
    InnerScanResult
  | [], pos, foundEntries, _cap, acc => ⟨acc, foundEntries, pos, false⟩
  | r :: rest, pos, foundEntries, cap, acc =>
    if r.found then scanFullOuterInner rest (pos + 1) foundEntries cap acc
    else
      let fe := foundEntries + 1
      if fe = cap then ⟨acc ++ [r], fe, pos + 1, true⟩
      else scanFullOuterInner rest (pos + 1) fe cap (acc ++ [r])

/-- Result of the outer block loop of `ScanFullOuter`. -/
structure OuterScanResult where
  rows : List BuildTupleRow
  blockPosition : Nat
  position : Nat
deriving DecidableEq, Repr

/-- The outer block loop of `ScanFullOuter`: iterate the remaining blocks
(`blocks` is `block_collection->blocks` from `block_position` on), resetting
`position` to 0 on each advance, and stop early when the vector capacity was
reached. -/
def scanFullOuterBlocks : List (List BuildTupleRow) → Nat → Nat → Nat → Nat →
    List BuildTupleRow → OuterScanResult
  | [], bp, pos, _fe, _cap, acc => ⟨acc, bp, pos⟩
  | b :: rest, bp, pos, fe, cap, acc =>
    let r := scanFullOuterInner (b.drop pos) pos fe cap acc
    if r.capped then ⟨r.rows, bp, r.position⟩
    else scanFullOuterBlocks rest (bp + 1) 0 r.foundEntries cap r.rows

/-- `JoinHashTable::ScanFullOuter`: collect up to `cap` build rows whose
found-flag is false starting from the scan state, emit them with every
probe-side column a constant NULL and the build-side columns gathered from the
rows, and return the advanced state.  `cap` stands for
`STANDARD_VECTOR_SIZE` (a build-time constant defined outside the sampled
sources) and `leftColumnCount` for `result.ColumnCount() - build_types.size()`. -/
def JoinHashTable.scanFullOuter (blocks : List (List BuildTupleRow)) (st : JoinHTScanState)
    (cap leftColumnCount : Nat) :
    List (List (Option Nat) × List Nat) × JoinHTScanState :=
  let r := scanFullOuterBlocks (blocks.drop st.blockPosition) st.blockPosition st.position 0 cap []
  (r.rows.map (fun row => (List.replicate leftColumnCount (none : Option Nat), row.cols)),
    ⟨r.blockPosition, r.position⟩)

theorem scanFullOuterInner_no_cap (block : List BuildTupleRow) :
    ∀ (pos fe cap : Nat) (acc : List BuildTupleRow),
      fe + block.countP (fun r => !r.found) < cap →
      scanFullOuterInner block pos fe cap acc =
        ⟨acc ++ block.filter (fun r => !r.found), fe + block.countP (fun r => !r.found),
          pos + block.length, false⟩ := by
  induction block with
  | nil => intro pos fe cap acc _; simp [scanFullOuterInner]
  | cons r rest ih =>
    intro pos fe cap acc h
    rcases hf : r.found
    · have hcnt : (r :: rest).countP (fun r => !r.found) = rest.countP (fun r => !r.found) + 1 := by
        rw [List.countP_cons]
        simp [hf]
      rw [hcnt] at h
      have hne : ¬ (fe + 1 = cap) := by omega
      rw [show scanFullOuterInner (r :: rest) pos fe cap acc
          = scanFullOuterInner rest (pos + 1) (fe + 1) cap (acc ++ [r]) from by
        simp [scanFullOuterInner, hf, hne]]
      rw [ih (pos + 1) (fe + 1) cap (acc ++ [r]) (by omega)]
      have hfil : (r :: rest).filter (fun r => !r.found) = r :: rest.filter (fun r => !r.found) := by
        simp [List.filter_cons, hf]
      rw [hfil, hcnt]
      simp only [List.append_assoc, List.singleton_append, List.length_cons,
        InnerScanResult.mk.injEq]
      exact ⟨trivial, by omega, by omega, trivial⟩
    · have hcnt : (r :: rest).countP (fun r => !r.found) = rest.countP (fun r => !r.found) := by
        rw [List.countP_cons]
        simp [hf]
      rw [hcnt] at h
      rw [show scanFullOuterInner (r :: rest) pos fe cap acc
          = scanFullOuterInner rest (pos + 1) fe cap acc from by
        simp [scanFullOuterInner, hf]]
      rw [ih (pos + 1) fe cap acc h]
      have hfil : (r :: rest).filter (fun r => !r.found) = rest.filter (fun r => !r.found) := by
        simp [List.filter_cons, hf]
      rw [hfil, hcnt]
      simp only [List.length_cons, InnerScanResult.mk.injEq]
      exact ⟨trivial, trivial, by omega, trivial⟩

theorem scanFullOuterBlocks_no_cap (blocks : List (List BuildTupleRow)) :
    ∀ (bp fe cap : Nat) (acc : List BuildTupleRow),
      fe + blocks.flatten.countP (fun r => !r.found) < cap →
      scanFullOuterBlocks blocks bp 0 fe cap acc =
        ⟨acc ++ blocks.flatten.filter (fun r => !r.found), bp + blocks.length, 0⟩ := by
  induction blocks with
  | nil => intro bp fe cap acc _; simp [scanFullOuterBlocks]
  | cons b rest ih =>
    intro bp fe cap acc h
    rw [List.flatten_cons, List.countP_append] at h
    show (let r := scanFullOuterInner ((b :: rest).getD 0 [] |>.drop 0) 0 fe cap acc
          if r.capped then ⟨r.rows, bp, r.position⟩
          else scanFullOuterBlocks rest (bp + 1) 0 r.foundEntries cap r.rows) = _
    rw [show ((b :: rest).getD 0 [] |>.drop 0) = b from by simp]
    rw [scanFullOuterInner_no_cap b 0 fe cap acc (by omega)]
    simp only []
    rw [ih (bp + 1) (fe + b.countP (fun r => !r.found)) cap
      (acc ++ b.filter (fun r => !r.found)) (by omega)]
    rw [List.flatten_cons, List.filter_append]
    simp only [Bool.false_eq_true, if_false, List.append_assoc, List.length_cons,
      OuterScanResult.mk.injEq, eq_self_iff_true, true_and, and_true]
    omega

/-- C3: after the probe side is exhausted, a `ScanFullOuter` call from the
initial scan state (with capacity to spare) emits exactly the build rows whose
found-flag is false, in block order, each with every probe-side column NULL and
the build-side columns gathered from the row; rows whose found-flag is true are
not emitted. -/
theorem scanFullOuter_emits_unfound (blocks : List (List BuildTupleRow))
    (cap leftColumnCount : Nat)
    (hcap : blocks.flatten.countP (fun r => !r.found) < cap) :
    (JoinHashTable.scanFullOuter blocks ⟨0, 0⟩ cap leftColumnCount).1
      = (blocks.flatten.filter (fun r => !r.found)).map
          (fun row => (List.replicate leftColumnCount (none : Option Nat), row.cols)) := by
  unfold JoinHashTable.scanFullOuter
  rw [show (blocks.drop (⟨0, 0⟩ : JoinHTScanState).blockPosition) = blocks from by simp]
  rw [scanFullOuterBlocks_no_cap blocks 0 0 cap [] (by omega)]
  simp

/-- Witness for `scanFullOuter_emits_unfound`: two blocks with three build
rows, one already matched; the two unmatched rows come out with NULL probe
columns. -/
theorem scanFullOuter_emits_unfound_witness :
    (JoinHashTable.scanFullOuter [[⟨true, [1]⟩, ⟨false, [2]⟩], [⟨false, [3]⟩]] ⟨0, 0⟩ 4 2).1
      = (([[⟨true, [1]⟩, ⟨false, [2]⟩], [⟨false, [3]⟩]] :
            List (List BuildTupleRow)).flatten.filter (fun r => !r.found)).map
          (fun row => (List.replicate 2 (none : Option Nat), row.cols)) :=
  scanFullOuter_emits_unfound [[⟨true, [1]⟩, ⟨false, [2]⟩], [⟨false, [3]⟩]] 4 2 (by decide)

/-! ### `JoinHashTable::InsertHashes` and chain order (C4) -/

/-- One row insertion of `InsertHashes`: `index = hash & bitmask`; the previous
`hashmap[index]` (null when the slot is empty) is stored into the row's
next-pointer slot at `pointer_offset`, then the row's address replaces
`hashmap[index]`.  Row addresses are modelled as natural-number ids, the hash
map as a list of optional row ids (`none` = null pointer) and the next-pointer
slots of the rows as a `Nat → Option Nat` map. -/
def insertHashStep (bitmask : Nat) (s : List (Option Nat) × (Nat → Option Nat))
    (row : Nat × Nat) : List (Option Nat) × (Nat → Option Nat) :=
  let index := row.1 &&& bitmask
  let np := updFn s.2 row.2 (s.1.getD index none)
  (s.1.set index (some row.2), np)

/-- `JoinHashTable::InsertHashes` over a vector of `(hash, row address)`
pairs, in order. -/
def JoinHashTable.insertHashes (bitmask : Nat) (rows : List (Nat × Nat))
    (hashMap : List (Option Nat)) (np : Nat → Option Nat) :
    List (Option Nat) × (Nat → Option Nat) :=
  rows.foldl (insertHashStep bitmask) (hashMap, np)

/-- Walk a chain from a head pointer through the next-pointer map, for at most
`fuel` steps (chains built by `InsertHashes` are null-terminated, so any
`fuel` at least the chain length returns the whole chain). -/
def chainList (np : Nat → Option Nat) : Option Nat → Nat → List Nat
  | none, _ => []
  | some _, 0 => []
  | some r, fuel + 1 => r :: chainList np (np r) fuel

theorem chainList_congr (np np' : Nat → Option Nat) :
    ∀ (fuel : Nat) (h : Option Nat),
      (∀ x ∈ chainList np h fuel, np' x = np x) →
      chainList np' h fuel = chainList np h fuel := by
  intro fuel
  induction fuel with
  | zero => intro h _; cases h <;> rfl
  | succ f ih =>
    intro h hagree
    cases h with
    | none => rfl
    | some r =>
      have hr : r ∈ chainList np (some r) (f + 1) := by
        rw [chainList]; exact List.mem_cons_self _ _
      show r :: chainList np' (np' r) f = r :: chainList np (np r) f
      rw [hagree r hr]
      congr 1
      exact ih (np r) (fun x hx => hagree x (by rw [chainList]; exact List.mem_cons_of_mem _ hx))

theorem insertHashes_fst_length (bitmask : Nat) (rows : List (Nat × Nat)) :
    ∀ (hm : List (Option Nat)) (np : Nat → Option Nat),
      (JoinHashTable.insertHashes bitmask rows hm np).1.length = hm.length := by
  induction rows with
  | nil => intro hm np; rfl
  | cons r rest ih =>
    intro hm np
    show (JoinHashTable.insertHashes bitmask rest _ _).1.length = _
    rw [ih]
    exact List.length_set ..

theorem insertHashes_lifo_aux (k : Nat) (rows : List (Nat × Nat)) (np0 : Nat → Option Nat)
    (hnd : (rows.map Prod.snd).Nodup) :
    ∀ (slot fuel : Nat), rows.length ≤ fuel →
      chainList (JoinHashTable.insertHashes (2 ^ k - 1) rows
            (List.replicate (2 ^ k) none) np0).2
          ((JoinHashTable.insertHashes (2 ^ k - 1) rows
              (List.replicate (2 ^ k) none) np0).1.getD slot none) fuel
        = ((rows.filter (fun row => row.1 &&& (2 ^ k - 1) == slot)).map Prod.snd).reverse := by
  induction rows using List.reverseRecOn with
  | nil =>
    intro slot fuel _
    show chainList np0 ((List.replicate (2 ^ k) (none : Option Nat)).getD slot none) fuel = _
    rw [show (List.replicate (2 ^ k) (none : Option Nat)).getD slot none = none from by
      rw [List.getD_eq_getElem?_getD, List.getElem?_replicate]
      split <;> rfl]
    cases fuel <;> rfl
  | append_singleton rs r ih =>
    intro slot fuel hfuel
    have hmapapp : (rs ++ [r]).map Prod.snd = rs.map Prod.snd ++ [r.2] := by
      rw [List.map_append]; rfl
    rw [hmapapp] at hnd
    have hnodup := List.nodup_append.mp hnd
    have hnds : (rs.map Prod.snd).Nodup := hnodup.1
    have hfresh : r.2 ∉ rs.map Prod.snd := by
      intro hmem
      exact hnodup.2.2 hmem (List.mem_singleton_self _)
    have ihs := ih hnds
    have hstep : JoinHashTable.insertHashes (2 ^ k - 1) (rs ++ [r])
          (List.replicate (2 ^ k) none) np0
        = insertHashStep (2 ^ k - 1)
            (JoinHashTable.insertHashes (2 ^ k - 1) rs (List.replicate (2 ^ k) none) np0) r := by
      unfold JoinHashTable.insertHashes
      rw [List.foldl_append]
      rfl
    set old := JoinHashTable.insertHashes (2 ^ k - 1) rs (List.replicate (2 ^ k) none) np0
      with hold
    have hlen : old.1.length = 2 ^ k := by
      rw [hold, insertHashes_fst_length, List.length_replicate]
    have hidxlt : r.1 &&& (2 ^ k - 1) < 2 ^ k := by
      have h1 : r.1 &&& (2 ^ k - 1) ≤ 2 ^ k - 1 := Nat.and_le_right
      have h2 : 0 < 2 ^ k := Nat.pos_pow_of_pos k (by omega)
      omega
    have hchainmem : ∀ (s fl : Nat), rs.length ≤ fl →
        ∀ x ∈ chainList old.2 (old.1.getD s none) fl, x ∈ rs.map Prod.snd := by
      intro s fl hfl x hx
      rw [ihs s fl hfl] at hx
      rw [List.mem_reverse] at hx
      rcases List.mem_map.mp hx with ⟨row, hrow, hxeq⟩
      exact hxeq ▸ List.mem_map_of_mem Prod.snd (List.mem_of_mem_filter hrow)
    rw [hstep]
    show chainList (updFn old.2 r.2 (old.1.getD (r.1 &&& (2 ^ k - 1)) none))
        ((old.1.set (r.1 &&& (2 ^ k - 1)) (some r.2)).getD slot none) fuel = _
    rw [List.length_append, List.length_singleton] at hfuel
    obtain ⟨f, rfl⟩ : ∃ f, fuel = f + 1 := ⟨fuel - 1, by omega⟩
    by_cases hslot : slot = r.1 &&& (2 ^ k - 1)
    · subst hslot
      rw [show (old.1.set (r.1 &&& (2 ^ k - 1)) (some r.2)).getD (r.1 &&& (2 ^ k - 1)) none
          = some r.2 from by
        rw [List.getD_eq_getElem?_getD, List.getElem?_set_self (by omega)]
        rfl]
      show r.2 :: chainList (updFn old.2 r.2 (old.1.getD (r.1 &&& (2 ^ k - 1)) none))
          (updFn old.2 r.2 (old.1.getD (r.1 &&& (2 ^ k - 1)) none) r.2) f = _
      rw [show updFn old.2 r.2 (old.1.getD (r.1 &&& (2 ^ k - 1)) none) r.2
          = old.1.getD (r.1 &&& (2 ^ k - 1)) none from by simp [updFn]]
      rw [chainList_congr old.2 _ f (old.1.getD (r.1 &&& (2 ^ k - 1)) none)
        (fun x hx => by
          have hxin := hchainmem _ f (by omega) x hx
          have hne : x ≠ r.2 := fun hc => hfresh (hc ▸ hxin)
          simp [updFn, hne])]
      rw [ihs _ f (by omega)]
      rw [List.filter_append]
      rw [show List.filter (fun row => row.1 &&& (2 ^ k - 1) == r.1 &&& (2 ^ k - 1)) [r]
          = [r] from by simp]
      rw [List.map_append, List.reverse_append]
      rfl
    · rw [show (old.1.set (r.1 &&& (2 ^ k - 1)) (some r.2)).getD slot none
          = old.1.getD slot none from by
        rw [List.getD_eq_getElem?_getD, List.getElem?_set_ne (fun hc => hslot hc.symm),
          ← List.getD_eq_getElem?_getD]]
      rw [chainList_congr old.2 _ (f + 1) (old.1.getD slot none)
        (fun x hx => by
          have hxin := hchainmem _ (f + 1) (by omega) x hx
          have hne : x ≠ r.2 := fun hc => hfresh (hc ▸ hxin)
          simp [updFn, hne])]
      rw [ihs slot (f + 1) (by omega)]
      rw [List.filter_append]
      rw [show List.filter (fun row => row.1 &&& (2 ^ k - 1) == slot) [r] = [] from by
        simp only [List.filter_cons, List.filter_nil]
        rw [if_neg]
        intro hc
        have hceq : r.1 &&& (2 ^ k - 1) = slot := by simpa using hc
        exact hslot hceq.symm]
      rw [List.append_nil]

/-- C4: `InsertHashes` computes `index = hash & bitmask`, writes the previous
`hashmap[index]` into the row's next-pointer slot, then stores the row address
into `hashmap[index]` (this is `insertHashStep` verbatim); consequently,
starting from the zeroed hash map allocated by `Finalize` with
`bitmask = 2^k - 1`, walking any slot's chain from its head visits exactly the
rows whose hash lands on that slot, in reverse insertion order (LIFO). -/
theorem insertHashes_chain_lifo (k : Nat) (rows : List (Nat × Nat)) (np0 : Nat → Option Nat)
    (hnd : (rows.map Prod.snd).Nodup) (slot fuel : Nat) (hfuel : rows.length ≤ fuel) :
    chainList (JoinHashTable.insertHashes (2 ^ k - 1) rows
          (List.replicate (2 ^ k) none) np0).2
        ((JoinHashTable.insertHashes (2 ^ k - 1) rows
            (List.replicate (2 ^ k) none) np0).1.getD slot none) fuel
      = ((rows.filter (fun row => row.1 &&& (2 ^ k - 1) == slot)).map Prod.snd).reverse :=
  insertHashes_lifo_aux k rows np0 hnd slot fuel hfuel

/-- Witness for `insertHashes_chain_lifo`: three rows, two of which hash to
slot 0 of a 2-slot map; the chain at slot 0 is their reverse insertion
order `[11, 10]`. -/
theorem insertHashes_chain_lifo_witness :
    chainList (JoinHashTable.insertHashes (2 ^ 1 - 1) [(0, 10), (2, 11), (1, 12)]
          (List.replicate (2 ^ 1) none) (fun _ => none)).2
        ((JoinHashTable.insertHashes (2 ^ 1 - 1) [(0, 10), (2, 11), (1, 12)]
            (List.replicate (2 ^ 1) none) (fun _ => none)).1.getD 0 none) 3
      = (([(0, 10), (2, 11), (1, 12)] : List (Nat × Nat)).filter
          (fun row => row.1 &&& (2 ^ 1 - 1) == 0) |>.map Prod.snd).reverse :=
  insertHashes_chain_lifo 1 [(0, 10), (2, 11), (1, 12)] (fun _ => none) (by decide) 0 3
    (by decide)

example :
    chainList (JoinHashTable.insertHashes (2 ^ 1 - 1) [(0, 10), (2, 11), (1, 12)]
          (List.replicate (2 ^ 1) none) (fun _ => none)).2
        ((JoinHashTable.insertHashes (2 ^ 1 - 1) [(0, 10), (2, 11), (1, 12)]
            (List.replicate (2 ^ 1) none) (fun _ => none)).1.getD 0 none) 3 = [11, 10] := by
  decide

/-! ### `JoinHashTable::Finalize` (C5) and `Probe` on an empty table (C8) -/

/-- Modelled from the spec: `NextPowerOfTwo` (duckdb/common/helper.hpp, not in
the sampled sources) — the least power of two that is at least `n`
(the spec's `next_pow2`). -/
def nextPowerOfTwo (n : Nat) : Nat := 2 ^ Nat.clog 2 n

/-- The capacity computation of `Finalize`:
`NextPowerOfTwo(max(Count() * 2, BLOCK_SIZE / sizeof(data_ptr_t) + 1))`.
`blockSize` and `ptrSize` stand for `Storage::BLOCK_SIZE` and
`sizeof(data_ptr_t)`. -/
def finalizeCapacity (count blockSize ptrSize : Nat) : Nat :=
  nextPowerOfTwo (max (count * 2) (blockSize / ptrSize + 1))

/-- The zero-initialized pointer array allocated by `Finalize` (`memset 0`,
i.e. every slot is a null pointer). -/
def allocHashMap (capacity : Nat) : List (Option Nat) :=
  List.replicate capacity none

/-- The finalized hash table: row count, capacity, bitmask, the hash-map
array, the per-row next-pointer map, and the `finalized` flag. -/
structure FinalizedHT where
  count : Nat
  capacity : Nat
  bitmask : Nat
  hashMap : List (Option Nat)
  nextPtr : Nat → Option Nat
  finalized : Bool

/-- `JoinHashTable::Finalize`: allocate and zero a pointer array of
`capacity = next_pow2(max(2N, block_bytes/ptr_size + 1))` slots, set
`bitmask = capacity - 1`, insert every built row (its hash and address,
in block order) via `InsertHashes`, and mark the table finalized. -/
def JoinHashTable.finalize (blockSize ptrSize : Nat) (rows : List (Nat × Nat))
    (np0 : Nat → Option Nat) : FinalizedHT :=
  let capacity := finalizeCapacity rows.length blockSize ptrSize
  let bitmask := capacity - 1
  let r := JoinHashTable.insertHashes bitmask rows (allocHashMap capacity) np0
  ⟨rows.length, capacity, bitmask, r.1, r.2, true⟩

/-- C5: `Finalize` allocates a hash map of
`next_pow2(max(2N, block_bytes/ptr_size + 1))` pointer slots, all
zero-initialized (null); the capacity is a power of two, at least both
arguments of the `max` and minimal among such powers, and
`bitmask = capacity - 1`. -/
theorem finalize_capacity_spec (blockSize ptrSize : Nat) (rows : List (Nat × Nat))
    (np0 : Nat → Option Nat) :
    (JoinHashTable.finalize blockSize ptrSize rows np0).capacity
        = nextPowerOfTwo (max (rows.length * 2) (blockSize / ptrSize + 1)) ∧
      (∃ k, (JoinHashTable.finalize blockSize ptrSize rows np0).capacity = 2 ^ k) ∧
      (JoinHashTable.finalize blockSize ptrSize rows np0).bitmask
        = (JoinHashTable.finalize blockSize ptrSize rows np0).capacity - 1 ∧
      rows.length * 2 ≤ (JoinHashTable.finalize blockSize ptrSize rows np0).capacity ∧
      blockSize / ptrSize + 1 ≤ (JoinHashTable.finalize blockSize ptrSize rows np0).capacity ∧
      (∀ j, max (rows.length * 2) (blockSize / ptrSize + 1) ≤ 2 ^ j →
        (JoinHashTable.finalize blockSize ptrSize rows np0).capacity ≤ 2 ^ j) ∧
      (∀ i < (JoinHashTable.finalize blockSize ptrSize rows np0).capacity,
        (allocHashMap (JoinHashTable.finalize blockSize ptrSize rows np0).capacity).getD i
          (some 0) = none) ∧
      (JoinHashTable.finalize blockSize ptrSize rows np0).finalized = true := by
  have hle : max (rows.length * 2) (blockSize / ptrSize + 1)
      ≤ (JoinHashTable.finalize blockSize ptrSize rows np0).capacity := by
    show _ ≤ finalizeCapacity rows.length blockSize ptrSize
    unfold finalizeCapacity nextPowerOfTwo
    exact Nat.le_pow_clog (by omega) _
  refine ⟨rfl, ⟨Nat.clog 2 (max (rows.length * 2) (blockSize / ptrSize + 1)), rfl⟩, rfl,
    le_trans (le_max_left _ _) hle, le_trans (le_max_right _ _) hle, ?_, ?_, rfl⟩
  · intro j hj
    show finalizeCapacity rows.length blockSize ptrSize ≤ 2 ^ j
    unfold finalizeCapacity nextPowerOfTwo
    exact Nat.pow_le_pow_right (by omega) ((Nat.le_pow_iff_clog_le (by omega)).mp hj)
  · intro i hi
    unfold allocHashMap
    rw [List.getD_eq_getElem?_getD, List.getElem?_replicate]
    have hi' : i < (JoinHashTable.finalize blockSize ptrSize rows np0).capacity := hi
    split
    · rfl
    · rfl

/-- Witness for `finalize_capacity_spec`: one row, 16-byte blocks and 8-byte
pointers: the capacity is at least 2N = 2 and at least 16/8 + 1 = 3, and at
most 2^2 (so it is exactly 4). -/
theorem finalize_capacity_spec_witness :
    ([((0 : Nat), (1 : Nat))].length * 2
        ≤ (JoinHashTable.finalize 16 8 [(0, 1)] (fun _ => none)).capacity) ∧
      (16 / 8 + 1 ≤ (JoinHashTable.finalize 16 8 [(0, 1)] (fun _ => none)).capacity) ∧
      ((JoinHashTable.finalize 16 8 [(0, 1)] (fun _ => none)).capacity ≤ 2 ^ 2) := by
  have h := finalize_capacity_spec 16 8 [(0, 1)] (fun _ => none)
  exact ⟨h.2.2.2.1, h.2.2.2.2.1, h.2.2.2.2.2.1 2 (by decide)⟩

/-- The `ScanStructure` data produced by `Probe`: the live-lane count, the
selection vector of live lanes, and the per-lane chain-head pointer loaded from
the hash map. -/
structure ProbeScanStructure where
  count : Nat
  selVector : List Nat
  pointers : Nat → Option Nat

/-- A `ScanStructure` with no live lanes. -/
def emptyProbeScanStructure : ProbeScanStructure :=
  ⟨0, [], fun _ => none⟩

/-- `JoinHashTable::Probe` (together with `InitializeScanStructure`,
`ApplyBitmask` and `InitializeSelectionVector`): prepare the probe keys; when
no lane survives, return immediately with `count = 0`; otherwise hash the
equality prefix (`hashes` is the external hash oracle per row), load
`hashmap[hash & bitmask]` into each live lane's pointer and drop the lanes
whose chain head is null. -/
def JoinHashTable.probe (ht : FinalizedHT) (joinType : JoinType) (nve : List Bool)
    (cols : List (List (Option Nat))) (n : Nat) (hashes : List Nat) : ProbeScanStructure :=
  let sel0 := JoinHashTable.prepareKeys joinType false nve cols n
  if sel0.length = 0 then ⟨0, sel0, fun _ => none⟩
  else
    let ptrs := fun idx => ht.hashMap.getD ((hashes.getD idx 0) &&& ht.bitmask) none
    let sel1 := sel0.filter (fun idx => (ptrs idx).isSome)
    ⟨sel1.length, sel1, ptrs⟩

/-- Modelled from the spec: the empty-hash-table check lives in the physical
join operator (not among the sampled sources) — `InitializeScanStructure`
asserts `Count() > 0` with the comment "should be handled before".  Per the
spec's boundary behavior, probing an empty finalized table returns `count = 0`
without touching the hash-map array. -/
def probeEmptyGuarded (ht : FinalizedHT) (joinType : JoinType) (nve : List Bool)
    (cols : List (List (Option Nat))) (n : Nat) (hashes : List Nat) : ProbeScanStructure :=
  if ht.count = 0 then emptyProbeScanStructure
  else JoinHashTable.probe ht joinType nve cols n hashes

/-- C8: building zero rows and finalizing yields an empty finalized table
(every hash-map slot null), and probing it returns a `ScanStructure` with
`count = 0` whose result does not depend on the hash-map array at all. -/
theorem probe_empty_table (blockSize ptrSize : Nat) (np0 : Nat → Option Nat)
    (joinType : JoinType) (nve : List Bool) (cols : List (List (Option Nat)))
    (n : Nat) (hashes : List Nat) :
    (JoinHashTable.finalize blockSize ptrSize [] np0).finalized = true ∧
      (JoinHashTable.finalize blockSize ptrSize [] np0).count = 0 ∧
      (JoinHashTable.finalize blockSize ptrSize [] np0).hashMap
        = List.replicate (JoinHashTable.finalize blockSize ptrSize [] np0).capacity none ∧
      probeEmptyGuarded (JoinHashTable.finalize blockSize ptrSize [] np0) joinType nve cols n
          hashes = emptyProbeScanStructure ∧
      (probeEmptyGuarded (JoinHashTable.finalize blockSize ptrSize [] np0) joinType nve cols n
          hashes).count = 0 ∧
      (∀ hm : List (Option Nat),
        probeEmptyGuarded
            { JoinHashTable.finalize blockSize ptrSize [] np0 with hashMap := hm }
            joinType nve cols n hashes = emptyProbeScanStructure) := by
  exact ⟨rfl, rfl, rfl, rfl, rfl, fun hm => rfl⟩

/-! ### `ScanStructure::AdvancePointers` (C9) -/

/-- `ScanStructure::AdvancePointers(sel, sel_count)`: each selected lane loads
the next pointer of its current row from `pointer_offset` — in the chain-list
model, the tail of the lane's remaining null-terminated chain — and survives
exactly when it is non-null; survivors are written into the selection vector
in iteration order.  Lane chains are `Nat → List Nat` (remaining row ids). -/
def ScanStructure.advancePointers (ptrs : Nat → List Nat) :
    List Nat → (Nat → List Nat) × List Nat
  | [] => (ptrs, [])
  | idx :: rest =>
    let ptrs1 := updFn ptrs idx (ptrs idx).tail
    let r := ScanStructure.advancePointers ptrs1 rest
    if ptrs1 idx = [] then (r.1, r.2) else (r.1, idx :: r.2)

theorem advancePointers_nil (ptrs : Nat → List Nat) :
    ScanStructure.advancePointers ptrs [] = (ptrs, []) := rfl

theorem advancePointers_cons (ptrs : Nat → List Nat) (idx : Nat) (rest : List Nat) :
    ScanStructure.advancePointers ptrs (idx :: rest)
      = if updFn ptrs idx (ptrs idx).tail idx = [] then
          ((ScanStructure.advancePointers (updFn ptrs idx (ptrs idx).tail) rest).1,
            (ScanStructure.advancePointers (updFn ptrs idx (ptrs idx).tail) rest).2)
        else
          ((ScanStructure.advancePointers (updFn ptrs idx (ptrs idx).tail) rest).1,
            idx :: (ScanStructure.advancePointers (updFn ptrs idx (ptrs idx).tail) rest).2) :=
  rfl

theorem advancePointers_cons_fst (ptrs : Nat → List Nat) (idx : Nat) (rest : List Nat) :
    (ScanStructure.advancePointers ptrs (idx :: rest)).1
      = (ScanStructure.advancePointers (updFn ptrs idx (ptrs idx).tail) rest).1 := by
  rw [advancePointers_cons]
  split <;> rfl

theorem advancePointers_cons_snd (ptrs : Nat → List Nat) (idx : Nat) (rest : List Nat) :
    (ScanStructure.advancePointers ptrs (idx :: rest)).2
      = if updFn ptrs idx (ptrs idx).tail idx = [] then
          (ScanStructure.advancePointers (updFn ptrs idx (ptrs idx).tail) rest).2
        else idx :: (ScanStructure.advancePointers (updFn ptrs idx (ptrs idx).tail) rest).2 := by
  rw [advancePointers_cons]
  split <;> rfl

/-- Total remaining chain length over a selection (the termination measure of
all chain-walking loops). -/
def chainSum (ptrs : Nat → List Nat) (sel : List Nat) : Nat :=
  (sel.map (fun idx => (ptrs idx).length)).sum

theorem chainSum_nil (ptrs : Nat → List Nat) : chainSum ptrs [] = 0 := rfl

theorem chainSum_cons (ptrs : Nat → List Nat) (idx : Nat) (rest : List Nat) :
    chainSum ptrs (idx :: rest) = (ptrs idx).length + chainSum ptrs rest := by
  unfold chainSum
  rw [List.map_cons, List.sum_cons]

theorem chainSum_sublist (ptrs : Nat → List Nat) {s1 s2 : List Nat} (h : List.Sublist s1 s2) :
    chainSum ptrs s1 ≤ chainSum ptrs s2 := by
  induction h with
  | slnil => exact Nat.le_refl _
  | cons a h ih => rw [chainSum_cons]; omega
  | cons₂ a h ih => rw [chainSum_cons, chainSum_cons]; omega

theorem chainSum_mono (f g : Nat → List Nat) (sel : List Nat)
    (h : ∀ i ∈ sel, (f i).length ≤ (g i).length) : chainSum f sel ≤ chainSum g sel := by
  induction sel with
  | nil => exact Nat.le_refl _
  | cons idx rest ih =>
    rw [chainSum_cons, chainSum_cons]
    have h1 := h idx (List.mem_cons_self _ _)
    have h2 := ih (fun i hi => h i (List.mem_cons_of_mem _ hi))
    omega

theorem updFn_length_le (ptrs : Nat → List Nat) (idx i : Nat) :
    ((updFn ptrs idx (ptrs idx).tail) i).length ≤ (ptrs i).length := by
  unfold updFn
  by_cases hi : i = idx
  · rw [if_pos hi, hi, List.length_tail]
    exact Nat.sub_le _ _
  · rw [if_neg hi]

theorem advancePointers_ptr_le (sel : List Nat) :
    ∀ (ptrs : Nat → List Nat) (i : Nat),
      ((ScanStructure.advancePointers ptrs sel).1 i).length ≤ (ptrs i).length := by
  induction sel with
  | nil => intro ptrs i; rw [advancePointers_nil]
  | cons idx rest ih =>
    intro ptrs i
    rw [advancePointers_cons_fst]
    exact le_trans (ih _ i) (updFn_length_le ptrs idx i)

theorem advancePointers_sublist (sel : List Nat) :
    ∀ ptrs : Nat → List Nat, List.Sublist (ScanStructure.advancePointers ptrs sel).2 sel := by
  induction sel with
  | nil => intro ptrs; exact List.Sublist.refl _
  | cons idx rest ih =>
    intro ptrs
    rw [advancePointers_cons_snd]
    split
    · exact List.Sublist.cons idx (ih _)
    · exact List.Sublist.cons₂ idx (ih _)

theorem advancePointers_measure (sel : List Nat) :
    ∀ ptrs : Nat → List Nat,
      chainSum (ScanStructure.advancePointers ptrs sel).1
          (ScanStructure.advancePointers ptrs sel).2
        + (ScanStructure.advancePointers ptrs sel).2.length ≤ chainSum ptrs sel := by
  induction sel with
  | nil => intro ptrs; rw [advancePointers_nil, chainSum_nil]; exact Nat.le_refl _
  | cons idx rest ih =>
    intro ptrs
    rw [advancePointers_cons_fst, advancePointers_cons_snd, chainSum_cons]
    have hm := chainSum_mono (updFn ptrs idx (ptrs idx).tail) ptrs rest
      (fun i _ => updFn_length_le ptrs idx i)
    have ih1 := ih (updFn ptrs idx (ptrs idx).tail)
    split
    · omega
    · rename_i hne
      rw [chainSum_cons, List.length_cons]
      have hlen := advancePointers_ptr_le rest (updFn ptrs idx (ptrs idx).tail) idx
      have htail : ((updFn ptrs idx (ptrs idx).tail) idx).length + 1 ≤ (ptrs idx).length := by
        have h0 : (updFn ptrs idx (ptrs idx).tail) idx = (ptrs idx).tail := by
          unfold updFn
          rw [if_pos rfl]
        rw [h0] at hne ⊢
        rw [List.length_tail]
        rcases hp : ptrs idx with _ | ⟨a, as⟩
        · rw [hp] at hne
          simp at hne
        · simp
      omega

theorem advancePointers_fst_eq (sel : List Nat) :
    ∀ (ptrs : Nat → List Nat), sel.Nodup → ∀ j,
      (ScanStructure.advancePointers ptrs sel).1 j
        = if j ∈ sel then (ptrs j).tail else ptrs j := by
  induction sel with
  | nil => intro ptrs _ j; simp [advancePointers_nil]
  | cons idx rest ih =>
    intro ptrs hnd j
    obtain ⟨hidxnr, hndr⟩ := List.nodup_cons.mp hnd
    rw [advancePointers_cons_fst, ih _ hndr j]
    by_cases hj : j = idx
    · subst hj
      rw [if_neg hidxnr, if_pos (List.mem_cons_self _ _)]
      unfold updFn
      rw [if_pos rfl]
    · have hupd : updFn ptrs idx (ptrs idx).tail j = ptrs j := by
        unfold updFn
        rw [if_neg hj]
      by_cases hjr : j ∈ rest
      · rw [if_pos hjr, if_pos (List.mem_cons_of_mem _ hjr), hupd]
      · rw [if_neg hjr, if_neg (by rw [List.mem_cons]; push_neg; exact ⟨hj, hjr⟩), hupd]

theorem advancePointers_mem_iff (sel : List Nat) :
    ∀ (ptrs : Nat → List Nat), sel.Nodup → ∀ j,
      (j ∈ (ScanStructure.advancePointers ptrs sel).2
        ↔ (j ∈ sel ∧ (ptrs j).tail ≠ [])) := by
  induction sel with
  | nil => intro ptrs _ j; simp [advancePointers_nil]
  | cons idx rest ih =>
    intro ptrs hnd j
    obtain ⟨hidxnr, hndr⟩ := List.nodup_cons.mp hnd
    rw [advancePointers_cons_snd]
    have h0 : updFn ptrs idx (ptrs idx).tail idx = (ptrs idx).tail := by
      unfold updFn
      rw [if_pos rfl]
    have hne : ∀ i, i ≠ idx → updFn ptrs idx (ptrs idx).tail i = ptrs i := by
      intro i hi
      unfold updFn
      rw [if_neg hi]
    have ihr := ih (updFn ptrs idx (ptrs idx).tail) hndr
    by_cases hd : updFn ptrs idx (ptrs idx).tail idx = []
    · rw [if_pos hd, ihr j]
      rw [h0] at hd
      constructor
      · rintro ⟨hjr, hjt⟩
        have hj : j ≠ idx := fun hc => hidxnr (hc ▸ hjr)
        rw [hne j hj] at hjt
        exact ⟨List.mem_cons_of_mem _ hjr, hjt⟩
      · rintro ⟨hjm, hjt⟩
        rcases List.mem_cons.mp hjm with hj | hjr
        · subst hj
          exact absurd hd hjt
        · have hj : j ≠ idx := fun hc => hidxnr (hc ▸ hjr)
          rw [hne j hj]
          exact ⟨hjr, hjt⟩
    · rw [if_neg hd, List.mem_cons, ihr j]
      rw [h0] at hd
      constructor
      · rintro (hj | ⟨hjr, hjt⟩)
        · subst hj
          exact ⟨List.mem_cons_self _ _, hd⟩
        · have hj : j ≠ idx := fun hc => hidxnr (hc ▸ hjr)
          rw [hne j hj] at hjt
          exact ⟨List.mem_cons_of_mem _ hjr, hjt⟩
      · rintro ⟨hjm, hjt⟩
        rcases List.mem_cons.mp hjm with hj | hjr
        · exact Or.inl hj
        · have hj : j ≠ idx := fun hc => hidxnr (hc ▸ hjr)
          rw [← hne j hj] at hjt
          exact Or.inr ⟨hjr, hjt⟩

/-- Repeated `AdvancePointers` over the full live selection, `n` times (the
shape of all chain-walking loops). -/
def ScanStructure.advanceIter (ptrs : Nat → List Nat) (sel : List Nat) :
    Nat → (Nat → List Nat) × List Nat
  | 0 => (ptrs, sel)
  | n + 1 =>
    let r := ScanStructure.advancePointers ptrs sel
    ScanStructure.advanceIter r.1 r.2 n

theorem advanceIter_empty (n : Nat) :
    ∀ ptrs : Nat → List Nat, (ScanStructure.advanceIter ptrs [] n).2 = [] := by
  induction n with
  | zero => intro ptrs; rfl
  | succ m ih => intro ptrs; exact ih ptrs

theorem advanceIter_terminates (n : Nat) :
    ∀ (ptrs : Nat → List Nat) (sel : List Nat),
      chainSum ptrs sel + 1 ≤ n → (ScanStructure.advanceIter ptrs sel n).2 = [] := by
  induction n with
  | zero => intro ptrs sel h; omega
  | succ m ih =>
    intro ptrs sel h
    show (ScanStructure.advanceIter (ScanStructure.advancePointers ptrs sel).1
        (ScanStructure.advancePointers ptrs sel).2 m).2 = []
    by_cases hemp : (ScanStructure.advancePointers ptrs sel).2 = []
    · rw [hemp]
      exact advanceIter_empty m _
    · apply ih
      have hme := advancePointers_measure sel ptrs
      have hpos : 0 < (ScanStructure.advancePointers ptrs sel).2.length :=
        List.length_pos.mpr hemp
      omega

/-- C9: `AdvancePointers` keeps at most the selected lanes; the surviving
selection is a sublist of the input selection (hence at most `sel_count` lanes,
in the same relative order); a lane survives iff the next pointer loaded from
its current row is non-null (its chain tail is nonempty); each selected lane's
pointer advances to exactly that tail; and repeatedly advancing empties the
live-lane set within total-chain-length-plus-one iterations, so chain walks
terminate. -/
theorem advancePointers_spec (ptrs : Nat → List Nat) (sel : List Nat) (hnd : sel.Nodup) :
    List.Sublist (ScanStructure.advancePointers ptrs sel).2 sel ∧
      (ScanStructure.advancePointers ptrs sel).2.length ≤ sel.length ∧
      (∀ j, j ∈ (ScanStructure.advancePointers ptrs sel).2
        ↔ (j ∈ sel ∧ (ptrs j).tail ≠ [])) ∧
      (∀ j, (ScanStructure.advancePointers ptrs sel).1 j
        = if j ∈ sel then (ptrs j).tail else ptrs j) ∧
      (ScanStructure.advanceIter ptrs sel (chainSum ptrs sel + 1)).2 = [] :=
  ⟨advancePointers_sublist sel ptrs,
    (advancePointers_sublist sel ptrs).length_le,
    advancePointers_mem_iff sel ptrs hnd,
    advancePointers_fst_eq sel ptrs hnd,
    advanceIter_terminates _ ptrs sel (Nat.le_refl _)⟩

/-- Witness for `advancePointers_spec` at two live lanes: lane 0 (chain
`[5, 6]`) survives since its loaded next pointer is non-null, and iterating
empties the live set. -/
theorem advancePointers_spec_witness :
    (0 ∈ (ScanStructure.advancePointers
          (fun i => if i = 0 then [5, 6] else if i = 1 then [7] else []) [0, 1]).2
        ↔ (0 ∈ [0, 1] ∧ ((fun i => if i = 0 then [5, 6] else if i = 1 then [7] else [])
            0).tail ≠ ([] : List Nat))) ∧
      (ScanStructure.advanceIter
          (fun i => if i = 0 then [5, 6] else if i = 1 then [7] else []) [0, 1]
          (chainSum (fun i => if i = 0 then [5, 6] else if i = 1 then [7] else []) [0, 1]
            + 1)).2 = [] :=
  ⟨(advancePointers_spec _ [0, 1] (by decide)).2.2.1 0,
    (advancePointers_spec _ [0, 1] (by decide)).2.2.2.2⟩

/-! ### The probe cursor and `ScanStructure::Next` (C7) -/

/-- `ResolvePredicates` on one lane: the external `RowOperations::Match` oracle
(`matchRow lane rowId`) applied to the lane's current row; a lane with an
exhausted chain never matches. -/
def laneMatches (matchRow : Nat → Nat → Bool) (ptrs : Nat → List Nat) (idx : Nat) : Bool :=
  match ptrs idx with
  | [] => false
  | r :: _ => matchRow idx r

/-- `ScanStructure::ScanKeyMatches`: while lanes remain live, resolve the
predicates (`match_sel` = matching lanes, `no_match_sel` = the rest), mark the
matches in `found_match`, and advance only the no-match lanes; the loop ends
with no live lanes.  Returns the final pointers and `found_match`. -/
def scanKeyMatches (matchRow : Nat → Nat → Bool) (ptrs : Nat → List Nat) (sel : List Nat)
    (found : Nat → Bool) : (Nat → List Nat) × (Nat → Bool) :=
  if hsel : sel = [] then (ptrs, found)
  else
    scanKeyMatches matchRow
      (ScanStructure.advancePointers ptrs
        (sel.filter (fun idx => !laneMatches matchRow ptrs idx))).1
      (ScanStructure.advancePointers ptrs
        (sel.filter (fun idx => !laneMatches matchRow ptrs idx))).2
      (fun i => if i ∈ sel.filter (fun idx => laneMatches matchRow ptrs idx) then true
        else found i)
termination_by chainSum ptrs sel + sel.length
decreasing_by
  have h1 := advancePointers_measure
    (sel.filter (fun idx => !laneMatches matchRow ptrs idx)) ptrs
  have h2 := chainSum_sublist ptrs
    (@List.filter_sublist Nat (fun idx => !laneMatches matchRow ptrs idx) sel)
  have h3 : 0 < sel.length := List.length_pos.mpr hsel
  omega

/-- The loop `NextSingleJoin` runs before constructing its output: like
`ScanKeyMatches` but each match is also recorded (in match order) as
`(lane, matched row)` — each lane leaves the live set on its first match, so at
most one pair per lane. -/
def singleJoinScan (matchRow : Nat → Nat → Bool) (ptrs : Nat → List Nat) (sel : List Nat)
    (found : Nat → Bool) (resultPairs : List (Nat × Nat)) :
    (Nat → List Nat) × (Nat → Bool) × List (Nat × Nat) :=
  if hsel : sel = [] then (ptrs, found, resultPairs)
  else
    singleJoinScan matchRow
      (ScanStructure.advancePointers ptrs
        (sel.filter (fun idx => !laneMatches matchRow ptrs idx))).1
      (ScanStructure.advancePointers ptrs
        (sel.filter (fun idx => !laneMatches matchRow ptrs idx))).2
      (fun i => if i ∈ sel.filter (fun idx => laneMatches matchRow ptrs idx) then true
        else found i)
      (resultPairs ++ (sel.filter (fun idx => laneMatches matchRow ptrs idx)).map
        (fun i => (i, (ptrs i).headD 0)))
termination_by chainSum ptrs sel + sel.length
decreasing_by
  have h1 := advancePointers_measure
    (sel.filter (fun idx => !laneMatches matchRow ptrs idx)) ptrs
  have h2 := chainSum_sublist ptrs
    (@List.filter_sublist Nat (fun idx => !laneMatches matchRow ptrs idx) sel)
  have h3 : 0 < sel.length := List.length_pos.mpr hsel
  omega

/-- The state returned by `ScanStructure::ScanInnerJoin` together with the
match selection it produced. -/
structure InnerJoinScan where
  resultSel : List Nat
  pointers : Nat → List Nat
  selVector : List Nat
  foundMatch : Nat → Bool

/-- `ScanStructure::ScanInnerJoin`: loop — resolve predicates, mark matches in
`found_match`; if any lane matched return the match selection, otherwise
advance all live lanes and retry; an empty live set returns no matches. -/
def scanInnerJoin (matchRow : Nat → Nat → Bool) (ptrs : Nat → List Nat) (sel : List Nat)
    (found : Nat → Bool) : InnerJoinScan :=
  if hsel : sel = [] then ⟨[], ptrs, sel, found⟩
  else
    if hres : sel.filter (fun idx => laneMatches matchRow ptrs idx) = [] then
      scanInnerJoin matchRow
        (ScanStructure.advancePointers ptrs sel).1
        (ScanStructure.advancePointers ptrs sel).2
        (fun i => if i ∈ sel.filter (fun idx => laneMatches matchRow ptrs idx) then true
          else found i)
    else
      ⟨sel.filter (fun idx => laneMatches matchRow ptrs idx), ptrs, sel,
        fun i => if i ∈ sel.filter (fun idx => laneMatches matchRow ptrs idx) then true
          else found i⟩
termination_by chainSum ptrs sel + sel.length
decreasing_by
  have h1 := advancePointers_measure sel ptrs
  have h3 : 0 < sel.length := List.length_pos.mpr hsel
  omega

/-- The probe cursor (`ScanStructure`): per-lane remaining chains (`pointers`:
the null-terminated chain as remaining row ids), the selection vector of live
lanes (the code's `count` is its length), the `found_match` bitmap, and the
`finished` flag. -/
structure ScanStructure where
  pointers : Nat → List Nat
  selVector : List Nat
  foundMatch : Nat → Bool
  finished : Bool

/-- Per-batch probe inputs: the owning table's join type and flags, the
external `RowOperations::Match` oracle, the probe batch size, the probe key
columns, and — for correlated MARK joins — the per-row `COUNT(*)` and
`COUNT(key)` fetched from the correlated aggregate (`none` when the join is
not correlated). -/
structure ProbeContext where
  joinType : JoinType
  nullValuesAreEqual : List Bool
  hasNull : Bool
  matchRow : Nat → Nat → Bool
  inputSize : Nat
  joinKeys : List (List (Option Nat))
  correlatedCounts : Option (List Int × List Int)

/-- The output chunk produced by one `Next` call, by join kind: nothing (a
finished cursor), a selection of emitted input lanes (SEMI/ANTI), a mark
column (MARK), per-input-row gathered build rows (SINGLE), matched
`(lane, build row)` pairs (INNER/RIGHT), or the left-outer completion lanes
whose build side is NULL (LEFT/OUTER). -/
inductive NextOutput where
  | none
  | lanes (sel : List Nat)
  | mark (col : List (Option Bool))
  | single (rows : List (Option Nat))
  | innerChunk (pairs : List (Nat × Nat))
  | leftOuter (sel : List Nat)
deriving DecidableEq, Repr

/-- `NextSemiOrAntiJoin<MATCH>`: emit the input lanes whose `found_match`
equals `MATCH`, in input order. -/
def nextSemiOrAntiJoin (MATCH : Bool) (n : Nat) (found : Nat → Bool) : List Nat :=
  (List.range n).filter (fun i => found i == MATCH)

/-- `ScanStructure::NextSemiJoin`: scan for key matches, emit matching lanes,
finish. -/
def ScanStructure.nextSemiJoin (ctx : ProbeContext) (ss : ScanStructure) :
    ScanStructure × NextOutput :=
  let r := scanKeyMatches ctx.matchRow ss.pointers ss.selVector ss.foundMatch
  (⟨r.1, [], r.2, true⟩, NextOutput.lanes (nextSemiOrAntiJoin true ctx.inputSize r.2))

/-- `ScanStructure::NextAntiJoin`: scan for key matches, emit non-matching
lanes, finish. -/
def ScanStructure.nextAntiJoin (ctx : ProbeContext) (ss : ScanStructure) :
    ScanStructure × NextOutput :=
  let r := scanKeyMatches ctx.matchRow ss.pointers ss.selVector ss.foundMatch
  (⟨r.1, [], r.2, true⟩, NextOutput.lanes (nextSemiOrAntiJoin false ctx.inputSize r.2))

/-- The correlated branch of `NextMarkJoin`: the validity mask starts from the
last key column's validity; a false result with `count_star > count` becomes
NULL; a row with `count_star = 0` becomes valid (false). -/
def correlatedMarkResult (lastKey : List (Option Nat)) (found : List Bool)
    (countStar cnt : List Int) (n : Nat) : List (Option Bool) :=
  (List.range n).map (fun i =>
    let b := found.getD i false
    let valid0 := (lastKey.getD i none).isSome
    let valid1 := if !b && countStar.getD i 0 > cnt.getD i 0 then false else valid0
    let valid2 := if countStar.getD i 0 == 0 then true else valid1
    if valid2 then some b else none)

/-- `ScanStructure::NextMarkJoin`: scan for key matches, then construct the
mark column (non-correlated via `ConstructMarkJoinResult`, correlated via the
fetched counts), and finish. -/
def ScanStructure.nextMarkJoin (ctx : ProbeContext) (ss : ScanStructure) :
    ScanStructure × NextOutput :=
  let r := scanKeyMatches ctx.matchRow ss.pointers ss.selVector ss.foundMatch
  let foundList := (List.range ctx.inputSize).map r.2
  let out :=
    match ctx.correlatedCounts with
    | Option.none =>
      ScanStructure.constructMarkJoinResult ctx.nullValuesAreEqual ctx.hasNull foundList
        ctx.joinKeys ctx.inputSize
    | Option.some cc =>
      correlatedMarkResult (ctx.joinKeys.getLastD []) foundList cc.1 cc.2 ctx.inputSize
  (⟨r.1, [], r.2, true⟩, NextOutput.mark out)

/-- `ScanStructure::NextSingleJoin`: walk all chains remembering the first
match per lane, output one row per input lane (`none`, i.e. build side NULL,
where no match), and finish. -/
def ScanStructure.nextSingleJoin (ctx : ProbeContext) (ss : ScanStructure) :
    ScanStructure × NextOutput :=
  let r := singleJoinScan ctx.matchRow ss.pointers ss.selVector ss.foundMatch []
  (⟨r.1, [], r.2.1, true⟩,
    NextOutput.single ((List.range ctx.inputSize).map (fun i => r.2.2.lookup i)))

/-- `ScanStructure::NextInnerJoin` (INNER and RIGHT): when lanes are live, run
`ScanInnerJoin`; on matches emit the `(lane, build row)` pairs and advance all
live lanes; `finished` is never set on this path.  (For RIGHT joins the code
additionally stores `true` into the matched build rows' found-flag bytes — a
mutation of the build table, which this cursor model leaves external.) -/
def ScanStructure.nextInnerJoin (ctx : ProbeContext) (ss : ScanStructure) :
    ScanStructure × NextOutput :=
  if ss.selVector = [] then (ss, NextOutput.innerChunk [])
  else
    let r := scanInnerJoin ctx.matchRow ss.pointers ss.selVector ss.foundMatch
    if r.resultSel = [] then
      (⟨r.pointers, r.selVector, r.foundMatch, ss.finished⟩, NextOutput.innerChunk [])
    else
      let adv := ScanStructure.advancePointers r.pointers r.selVector
      (⟨adv.1, adv.2, r.foundMatch, ss.finished⟩,
        NextOutput.innerChunk (r.resultSel.map (fun i => (i, (r.pointers i).headD 0))))

/-- `ScanStructure::NextLeftJoin` (LEFT and OUTER): run the inner join; once it
produces an empty chunk, emit the lanes that never matched (their build side
NULL) and finish. -/
def ScanStructure.nextLeftJoin (ctx : ProbeContext) (ss : ScanStructure) :
    ScanStructure × NextOutput :=
  let r := ScanStructure.nextInnerJoin ctx ss
  match r with
  | (ss1, NextOutput.innerChunk []) =>
    (⟨ss1.pointers, ss1.selVector, ss1.foundMatch, true⟩,
      NextOutput.leftOuter ((List.range ctx.inputSize).filter (fun i => !ss1.foundMatch i)))
  | other => other

/-- `ScanStructure::Next`: a finished cursor returns at once with no output and
unchanged state; otherwise dispatch on the join type. -/
def ScanStructure.next (ctx : ProbeContext) (ss : ScanStructure) :
    ScanStructure × NextOutput :=
  if ss.finished then (ss, NextOutput.none)
  else
    match ctx.joinType with
    | JoinType.INNER => ScanStructure.nextInnerJoin ctx ss
    | JoinType.RIGHT => ScanStructure.nextInnerJoin ctx ss
    | JoinType.SEMI => ScanStructure.nextSemiJoin ctx ss
    | JoinType.MARK => ScanStructure.nextMarkJoin ctx ss
    | JoinType.ANTI => ScanStructure.nextAntiJoin ctx ss
    | JoinType.OUTER => ScanStructure.nextLeftJoin ctx ss
    | JoinType.LEFT => ScanStructure.nextLeftJoin ctx ss
    | JoinType.SINGLE => ScanStructure.nextSingleJoin ctx ss

/-- C7: for SEMI, ANTI, MARK and SINGLE joins, a single `Next` call leaves the
cursor `finished` regardless of the remaining chain lengths, and any `Next`
call on a finished cursor returns with no output and the state unchanged. -/
theorem next_single_pass_finishes (ctx : ProbeContext) (ss : ScanStructure)
    (h : ctx.joinType = JoinType.SEMI ∨ ctx.joinType = JoinType.ANTI ∨
      ctx.joinType = JoinType.MARK ∨ ctx.joinType = JoinType.SINGLE) :
    ((ScanStructure.next ctx ss).1.finished = true) ∧
      (ss.finished = true → ScanStructure.next ctx ss = (ss, NextOutput.none)) := by
  constructor
  · by_cases hf : ss.finished
    · simp [ScanStructure.next, hf]
    · rcases h with h | h | h | h <;>
        simp [ScanStructure.next, hf, h, ScanStructure.nextSemiJoin,
          ScanStructure.nextAntiJoin, ScanStructure.nextMarkJoin, ScanStructure.nextSingleJoin]
  · intro hf
    simp [ScanStructure.next, hf]

/-- Witness for `next_single_pass_finishes`: a SEMI-join cursor (also run on a
finished cursor of the same shape). -/
theorem next_single_pass_finishes_witness :
    ((ScanStructure.next ⟨JoinType.SEMI, [], false, fun _ _ => false, 0, [], Option.none⟩
        ⟨fun _ => [], [], fun _ => false, false⟩).1.finished = true) ∧
      ((⟨fun _ => [], [], fun _ => false, false⟩ : ScanStructure).finished = true →
        ScanStructure.next ⟨JoinType.SEMI, [], false, fun _ _ => false, 0, [], Option.none⟩
            ⟨fun _ => [], [], fun _ => false, false⟩
          = (⟨fun _ => [], [], fun _ => false, false⟩, NextOutput.none)) :=
  next_single_pass_finishes
    ⟨JoinType.SEMI, [], false, fun _ _ => false, 0, [], Option.none⟩
    ⟨fun _ => [], [], fun _ => false, false⟩ (Or.inl rfl)
